import Mathlib

/-!
Shallow embedding of the separate-chaining hash map in `src/hash_map.rs`.

The table is a list of buckets (each a list of key/value pairs) together with
the stored entry counter `len` and the allocated capacity `cap` of the outer
`Vec` of buckets.  Rust's `DefaultHasher` digest is modelled by an arbitrary
deterministic function `hash : K → Nat` (the source computes
`hasher.finish() % length` on a `u64` digest; the quotient by `length` makes a
`Nat`-valued digest equivalent).  Rust panics (remainder by zero, out-of-range
indexing) are modelled by `Except.error ()`: a function returning
`Except Unit _` yields `.error ()` exactly on the inputs where the Rust code
would panic.
-/

set_option maxRecDepth 200000
set_option linter.unusedVariables false
set_option linter.unusedSectionVars false

namespace RustHashMap

/-- `const INITIAL_SIZE: usize = 1024`. -/
def INITIAL_SIZE : Nat := 1024

/-- `struct HashMap<K, V> { buckets: Vec<Vec<(K, V)>>, len: usize }`.
`cap` tracks `self.buckets.capacity()`, the allocated capacity of the outer
vector, which the source inspects in `put`; `Vec::new` gives capacity 0 and
`Vec::with_capacity(n)` followed by exactly `n` pushes gives capacity `n`. -/
structure HashMap (K V : Type) where
  buckets : List (List (K × V))
  len : Nat
  cap : Nat
deriving Repr

variable {K V : Type} [DecidableEq K]

/-- `HashMap::new()`: empty bucket vector (capacity 0), zero entries. -/
def new : HashMap K V :=
  { buckets := [], len := 0, cap := 0 }

/-- `calculate_hash(key, length) = (hasher(key) % length as u64) as usize`.
Rust's `%` panics when `length == 0`; the `none` result models that panic. -/
def calculate_hash (hash : K → Nat) (key : K) (length : Nat) : Option Nat :=
  if length = 0 then none else some (hash key % length)

/-- `get`: hash the key against `self.buckets.len()`, then linearly scan the
selected bucket for an entry whose key equals the looked-up key.  On a table
with zero buckets the hash computation is a remainder by zero (`.error ()`). -/
def get (hash : K → Nat) (m : HashMap K V) (key : K) : Except Unit (Option V) :=
  match calculate_hash hash key m.buckets.length with
  | none => .error ()
  | some index =>
      .ok (((m.buckets.getD index []).find? fun e => decide (e.1 = key)).map fun e => e.2)

/-- `is_empty(): self.len == 0`. -/
def is_empty (m : HashMap K V) : Bool :=
  decide (m.len = 0)

/-- `size(): return self.len`. -/
def size (m : HashMap K V) : Nat :=
  m.len

/-- `contains_key`: delegates to `get`; a panic in `get` propagates. -/
def contains_key (hash : K → Nat) (m : HashMap K V) (key : K) : Except Unit Bool :=
  match get hash m key with
  | .ok (some _) => .ok true
  | .ok none => .ok false
  | .error e => .error e

/-- `resize`: doubles the bucket count (`INITIAL_SIZE` when it is zero),
allocates `target_size` fresh empty buckets, then drains every old bucket in
order and pushes each entry into the bucket selected by its hash against the
new length.  `buckets.len()` equals `target_size` (never zero) at every hash
computation inside the loop, so no panic is reachable here. -/
def resize (hash : K → Nat) (m : HashMap K V) : HashMap K V :=
  let target_size := if m.buckets.length = 0 then INITIAL_SIZE else 2 * m.buckets.length
  let drained := m.buckets.flatten
  let buckets := drained.foldl
    (fun bs kv => bs.set (hash kv.1 % target_size) (bs.getD (hash kv.1 % target_size) [] ++ [kv]))
    (List.replicate target_size ([] : List (K × V)))
  { buckets := buckets, len := m.len, cap := target_size }

/-- The scan loop of `put`: walk the chain; at the first entry whose stored key
equals the inserted key, replace that entry's value in place
(`mem::replace(value, val)`) and stop (`return`).  `none` means the loop ran
off the end without a match. -/
def putLoop (key : K) (val : V) : List (K × V) → Option (List (K × V))
  | [] => none
  | (keyold, value) :: rest =>
      if key = keyold then some ((keyold, val) :: rest)
      else (putLoop key val rest).map fun tail => (keyold, value) :: tail

/-- `put`: resize first when `buckets.len() == 0 || buckets.len() >= buckets.capacity()/2`,
then hash against the (post-resize) bucket count and scan that bucket.  The
source increments `self.len` in both the replace branch and the append branch.
The bucket count is provably nonzero at the hash computation (the guard forces
a resize whenever it is zero), so the remainder never divides by zero. -/
def put (hash : K → Nat) (m : HashMap K V) (key : K) (val : V) : HashMap K V :=
  let m1 := if m.buckets.length = 0 ∨ m.cap / 2 ≤ m.buckets.length then resize hash m else m
  let hash_val := hash key % m1.buckets.length
  let chain := m1.buckets.getD hash_val []
  match putLoop key val chain with
  | some updated =>
      { buckets := m1.buckets.set hash_val updated, len := m1.len + 1, cap := m1.cap }
  | none =>
      { buckets := m1.buckets.set hash_val (chain ++ [(key, val)]), len := m1.len + 1, cap := m1.cap }

/-- `Vec::swap_remove(index)`: overwrite position `index` with the last
element, then pop the last element.  Only reached with `index` in bounds. -/
def swapRemove {α : Type} (l : List α) (index : Nat) : List α :=
  match l.getLast? with
  | none => l
  | some last => (l.set index last).dropLast

/-- The scan loop of `remove`:
`for (index, (y, _)) in chain.iter().enumerate()`, exiting at the first index
where `*y == chain[index].0` — the entry's key compared with itself.  Returns
the exit index together with the entry iterated at that index. -/
def removeScan (chain : List (K × V)) : Option (Nat × (K × V)) :=
  chain.enum.find? fun p =>
    match chain.get? p.1 with
    | some e => decide (p.2.1 = e.1)
    | none => false

/-- `remove`: return `None` on an empty table (`is_empty` guard), otherwise
hash the key and run the scan loop on the selected bucket; on a hit, decrement
`self.len` and `swap_remove` the entry, returning its value.  A table whose
counter is nonzero while the bucket vector is empty would panic in the hash
computation (`.error ()`). -/
def remove (hash : K → Nat) (m : HashMap K V) (key : K) : Except Unit (Option V × HashMap K V) :=
  if is_empty m then .ok (none, m)
  else
    match calculate_hash hash key m.buckets.length with
    | none => .error ()
    | some hash_val =>
        let chain := m.buckets.getD hash_val []
        match removeScan chain with
        | some p =>
            .ok (some p.2.2,
              { buckets := m.buckets.set hash_val (swapRemove chain p.1),
                len := m.len - 1, cap := m.cap })
        | none => .ok (none, m)

/-- Iterator cursor: `struct Iter { outer: usize, inner: usize }` (the borrowed
map itself is passed alongside). -/
structure Iter where
  outer : Nat
  inner : Nat
deriving Repr, DecidableEq

/-- The loop body of `Iter::next`: yield `buckets[outer][inner]` and advance
`inner`; on an exhausted bucket move to the next bucket; once `outer` runs past
the bucket vector, stop with `none`. -/
def iterNextLoop (m : HashMap K V) (outer inner : Nat) : Option ((K × V) × Iter) :=
  match h : m.buckets.get? outer with
  | some chain =>
      match chain.get? inner with
      | some kv => some (kv, ⟨outer, inner + 1⟩)
      | none => iterNextLoop m (outer + 1) 0
  | none => none
termination_by m.buckets.length - outer
decreasing_by
  have hlt : outer < m.buckets.length := by
    rcases List.get?_eq_some.mp h with ⟨hl, -⟩
    exact hl
  omega

/-- `Iter::next` on cursor `it`. -/
def iterNext (m : HashMap K V) (it : Iter) : Option ((K × V) × Iter) :=
  iterNextLoop m it.outer it.inner

/-- `(&map).into_iter()`: cursor at the start of the bucket vector. -/
def into_iter : Iter :=
  { outer := 0, inner := 0 }

/-- Driving the iterator: collect the yields of repeated `Iter::next` calls,
stopping at `none`; `fuel` bounds the number of calls. -/
def iterRunF (m : HashMap K V) : Nat → Iter → List (K × V)
  | 0, _ => []
  | fuel + 1, it =>
      match iterNext m it with
      | none => []
      | some (kv, it2) => kv :: iterRunF m fuel it2

/-- Total number of entries stored across all buckets. -/
def totalEntries (m : HashMap K V) : Nat :=
  m.buckets.flatten.length

/-- The entries the iterator still has to deliver from cursor
`(outer, inner)`: the rest of the current bucket, then all later buckets. -/
def remainingFrom (m : HashMap K V) (outer inner : Nat) : List (K × V) :=
  (m.buckets.getD outer []).drop inner ++ (m.buckets.drop (outer + 1)).flatten

/-- A digest standing for a concrete run of `DefaultHasher` on `Nat` keys: the
identity.  Any two keys congruent modulo the bucket count collide, which is
what the concrete bug inputs below exercise. -/
def idHash (n : Nat) : Nat := n

/-- State-passing reading of `get` on its shared-borrow receiver: result paired
with the receiver, which a `&self` method cannot mutate. -/
def getS (hash : K → Nat) (m : HashMap K V) (key : K) :
    Except Unit (Option V) × HashMap K V :=
  (get hash m key, m)

/-- State-passing reading of `contains_key` on its shared-borrow receiver. -/
def contains_keyS (hash : K → Nat) (m : HashMap K V) (key : K) :
    Except Unit Bool × HashMap K V :=
  (contains_key hash m key, m)

/-- State-passing reading of `size` on its shared-borrow receiver. -/
def sizeS (m : HashMap K V) : Nat × HashMap K V :=
  (size m, m)

/-- State-passing reading of `is_empty` on its shared-borrow receiver. -/
def is_emptyS (m : HashMap K V) : Bool × HashMap K V :=
  (is_empty m, m)

/-- State-passing reading of a full iterator traversal over the borrowed map. -/
def iterS (m : HashMap K V) (fuel : Nat) : List (K × V) × HashMap K V :=
  (iterRunF m fuel into_iter, m)

/-! ### Helper lemmas -/

lemma length_foldl_set (hash : K → Nat) (t : Nat) :
    ∀ (l : List (K × V)) (bs : List (List (K × V))),
      (l.foldl
        (fun bs kv => bs.set (hash kv.1 % t) (bs.getD (hash kv.1 % t) [] ++ [kv]))
        bs).length = bs.length := by
  intro l
  induction l with
  | nil => intro bs; rfl
  | cons kv l ih => intro bs; rw [List.foldl_cons, ih, List.length_set]

lemma resize_buckets_length (hash : K → Nat) (m : HashMap K V) :
    (resize hash m).buckets.length =
      if m.buckets.length = 0 then INITIAL_SIZE else 2 * m.buckets.length := by
  simp only [resize]
  rw [length_foldl_set, List.length_replicate]

lemma resize_buckets_pos (hash : K → Nat) (m : HashMap K V) :
    0 < (resize hash m).buckets.length := by
  rw [resize_buckets_length]
  split
  · norm_num [INITIAL_SIZE]
  · next h => omega

lemma put_stage_pos (hash : K → Nat) (m : HashMap K V) :
    0 < (if m.buckets.length = 0 ∨ m.cap / 2 ≤ m.buckets.length
          then resize hash m else m).buckets.length := by
  split
  · exact resize_buckets_pos hash m
  · next h =>
      push_neg at h
      omega

lemma putLoop_none_find? (key : K) (val : V) :
    ∀ chain : List (K × V), putLoop key val chain = none →
      chain.find? (fun e => decide (e.1 = key)) = none := by
  intro chain
  induction chain with
  | nil => intro _; rfl
  | cons e rest ih =>
      obtain ⟨keyold, value⟩ := e
      intro h
      simp only [putLoop] at h
      split at h
      · exact absurd h (by simp)
      · next hne =>
          rw [Option.map_eq_none'] at h
          rw [List.find?_cons_of_neg _ (by simp [Ne.symm hne]), ih h]

lemma putLoop_some_find? (key : K) (val : V) :
    ∀ chain updated : List (K × V), putLoop key val chain = some updated →
      ∃ k0, updated.find? (fun e => decide (e.1 = key)) = some (k0, val) := by
  intro chain
  induction chain with
  | nil => intro updated h; simp [putLoop] at h
  | cons e rest ih =>
      obtain ⟨keyold, value⟩ := e
      intro updated h
      simp only [putLoop] at h
      split at h
      · next heq =>
          obtain rfl : (keyold, val) :: rest = updated := Option.some.inj h
          exact ⟨keyold, List.find?_cons_of_pos _ (by simp [heq.symm])⟩
      · next hne =>
          rw [Option.map_eq_some'] at h
          obtain ⟨tail, hrec, rfl⟩ := h
          obtain ⟨k0, hfind⟩ := ih tail hrec
          exact ⟨k0, by rw [List.find?_cons_of_neg _ (by simp [Ne.symm hne]), hfind]⟩

lemma getD_set_self {α : Type} (l : List α) (i : Nat) (a d : α) (h : i < l.length) :
    (l.set i a).getD i d = a := by
  induction l generalizing i with
  | nil => simp at h
  | cons x xs ih =>
      cases i with
      | zero => rfl
      | succ n =>
          rw [List.set_cons_succ, List.getD_cons_succ]
          exact ih n (by simpa using h)

lemma get_of_pos (hash : K → Nat) (m : HashMap K V) (key : K)
    (h : 0 < m.buckets.length) :
    get hash m key = .ok
      (((m.buckets.getD (hash key % m.buckets.length) []).find?
          fun e => decide (e.1 = key)).map fun e => e.2) := by
  simp only [get, calculate_hash]
  rw [if_neg (by omega)]

/-! ### Claim theorems -/

/-- C7: for every table state, every key and every value, `get(k)` immediately
after `put(k, v)` returns `Some(v)`.  Both calls hash `k` against the same
(post-resize) bucket count, so they select the same bucket; `put`'s scan
replaces the first entry whose key equals `k` (or appends a fresh entry when
none matches), and `get`'s scan finds exactly that entry. -/
theorem put_then_get (hash : K → Nat) (m : HashMap K V) (key : K) (val : V) :
    get hash (put hash m key val) key = .ok (some val) := by
  have hpos := put_stage_pos hash m
  simp only [put]
  split
  · next updated heq =>
      rw [get_of_pos _ _ _ (by simpa [List.length_set] using hpos)]
      simp only [List.length_set]
      rw [getD_set_self _ _ _ _ (Nat.mod_lt _ hpos)]
      obtain ⟨k0, hfind⟩ := putLoop_some_find? key val _ updated heq
      rw [hfind]
      rfl
  · next heq =>
      rw [get_of_pos _ _ _ (by simpa [List.length_set] using hpos)]
      simp only [List.length_set]
      rw [getD_set_self _ _ _ _ (Nat.mod_lt _ hpos)]
      rw [List.find?_append, putLoop_none_find? key val _ heq]
      simp

/-- C3: `get` (and through it `contains_key`) on a freshly constructed table
computes `hash % 0`, which in the source panics (remainder by zero) instead of
returning `None`; the panic is the `.error ()` outcome. -/
theorem get_on_zero_capacity_panics (hash : K → Nat) (key : K) :
    get hash (new : HashMap K V) key = .error () ∧
    contains_key hash (new : HashMap K V) key = .error () :=
  ⟨rfl, rfl⟩

lemma removeScan_cons (e : K × V) (rest : List (K × V)) :
    removeScan (e :: rest) = some (0, e) := by
  unfold removeScan
  rw [List.enum_cons]
  rw [List.find?_cons_of_pos _ (by simp)]

/-- C9: on a table with nonzero counter, whenever the looked-up key's target
bucket is non-empty, `remove` hits the self-comparing match test at index 0,
so it returns the bucket's first entry's value, swap-removes that first entry
and decrements the counter — no hypothesis relates the looked-up key to any
stored key. -/
theorem remove_takes_first_of_bucket (hash : K → Nat) (m : HashMap K V) (key : K)
    (e : K × V) (rest : List (K × V))
    (hlen : m.len ≠ 0) (hcap : m.buckets.length ≠ 0)
    (hchain : m.buckets.getD (hash key % m.buckets.length) [] = e :: rest) :
    remove hash m key = .ok (some e.2,
      { buckets := m.buckets.set (hash key % m.buckets.length) (swapRemove (e :: rest) 0),
        len := m.len - 1, cap := m.cap }) := by
  have hemp : is_empty m = false := by simp [is_empty, hlen]
  simp only [remove, hemp, Bool.false_eq_true, if_false, calculate_hash]
  rw [if_neg hcap]
  simp only [hchain, removeScan_cons]

/-- C9 witness: on the singleton table `{0 ↦ 5}` (1024 buckets), looking up
key 0 removes the sole entry of bucket 0 and returns its value 5. -/
theorem remove_takes_first_of_bucket_witness :
    (put idHash (new : HashMap Nat Nat) 0 5).len ≠ 0 ∧
    (put idHash (new : HashMap Nat Nat) 0 5).buckets.length ≠ 0 ∧
    (put idHash (new : HashMap Nat Nat) 0 5).buckets.getD
        (idHash 0 % (put idHash (new : HashMap Nat Nat) 0 5).buckets.length) []
      = ((0 : Nat), (5 : Nat)) :: [] ∧
    remove idHash (put idHash (new : HashMap Nat Nat) 0 5) 0 = .ok (some 5,
      { buckets := (put idHash (new : HashMap Nat Nat) 0 5).buckets.set
          (idHash 0 % (put idHash (new : HashMap Nat Nat) 0 5).buckets.length)
          (swapRemove (((0 : Nat), (5 : Nat)) :: []) 0),
        len := (put idHash (new : HashMap Nat Nat) 0 5).len - 1,
        cap := (put idHash (new : HashMap Nat Nat) 0 5).cap }) :=
  ⟨by decide, by decide, by decide,
    remove_takes_first_of_bucket idHash _ 0 (0, 5) [] (by decide) (by decide) (by decide)⟩

/-- C1 (count bug): updating key 0 from value 1 to value 2 leaves `get`
returning `Some 2` as the claim states, but `size()` reports 2 because `put`
executes `self.len += 1` in its replace branch as well. -/
theorem update_put_increments_count :
    (get idHash (put idHash (put idHash (new : HashMap Nat Nat) 0 1) 0 2) 0).toOption
        = some (some 2) ∧
    size (put idHash (put idHash (new : HashMap Nat Nat) 0 1) 0 2) = 2 := by
  decide

/-- C2 (absent-remove bug): key 1024 was never inserted (`contains_key` is
false) yet shares bucket 0 of the 1024-bucket table with the entry `(0, 5)`;
`remove(1024)` returns `Some 5`, drops `size()` to 0 and empties bucket 0,
because the scan compares each entry's key with itself. -/
theorem remove_absent_key_takes_collider :
    (contains_key idHash (put idHash (new : HashMap Nat Nat) 0 5) 1024).toOption
        = some false ∧
    (remove idHash (put idHash (new : HashMap Nat Nat) 0 5) 1024).toOption.map Prod.fst
        = some (some 5) ∧
    (remove idHash (put idHash (new : HashMap Nat Nat) 0 5) 1024).toOption.map
        (fun p => size p.2) = some 0 ∧
    (remove idHash (put idHash (new : HashMap Nat Nat) 0 5) 1024).toOption.map
        (fun p => p.2.buckets.getD 0 []) = some [] := by
  decide

/-- C4 (count invariant bug): the invariant `len = total stored entries` holds
for the empty table but is broken by an updating `put`: after `put(3,1)` then
`put(3,2)` the counter reads 2 while the buckets hold a single entry. -/
theorem count_diverges_from_stored_entries :
    size (new : HashMap Nat Nat) = totalEntries (new : HashMap Nat Nat) ∧
    size (put idHash (put idHash (new : HashMap Nat Nat) 3 1) 3 2) = 2 ∧
    totalEntries (put idHash (put idHash (new : HashMap Nat Nat) 3 1) 3 2) = 1 := by
  decide

/-- C5 (resize-trigger bug): after one insert the table has 1 entry, 1024
buckets and allocated capacity 1024; the entry count 1 is far below half the
capacity, yet the next `put` doubles the table to 2048 buckets, because the
trigger compares `buckets.len()` — not the entry count — against
`buckets.capacity() / 2`. -/
theorem put_resizes_below_half_load :
    size (put idHash (new : HashMap Nat Nat) 0 5) = 1 ∧
    (put idHash (new : HashMap Nat Nat) 0 5).buckets.length = 1024 ∧
    (put idHash (new : HashMap Nat Nat) 0 5).cap = 1024 ∧
    size (put idHash (new : HashMap Nat Nat) 0 5)
        < (put idHash (new : HashMap Nat Nat) 0 5).cap / 2 ∧
    (put idHash (put idHash (new : HashMap Nat Nat) 0 5) 1 7).buckets.length = 2048 := by
  decide

/-- C6 (remove round-trip bug): keys 0 and 2048 share bucket 0 of the
2048-bucket table.  After `put(0,5)` and `put(2048,7)` both entries are
retrievable, but `remove(2048)` returns `Some 5` — the colliding first entry's
value — and afterwards `get(2048)` still returns `Some 7` and `contains_key`
is still true. -/
theorem remove_roundtrip_returns_colliding_value :
    (get idHash (put idHash (put idHash (new : HashMap Nat Nat) 0 5) 2048 7) 2048).toOption
        = some (some 7) ∧
    (remove idHash (put idHash (put idHash (new : HashMap Nat Nat) 0 5) 2048 7)
        2048).toOption.map Prod.fst = some (some 5) ∧
    (remove idHash (put idHash (put idHash (new : HashMap Nat Nat) 0 5) 2048 7)
        2048).toOption.map (fun p => (get idHash p.2 2048).toOption)
        = some (some (some 7)) ∧
    (remove idHash (put idHash (put idHash (new : HashMap Nat Nat) 0 5) 2048 7)
        2048).toOption.map (fun p => (contains_key idHash p.2 2048).toOption)
        = some (some true) := by
  decide

lemma flatten_drop_succ {α : Type} :
    ∀ (bs : List (List α)) (n : Nat),
      (bs.drop n).flatten = bs.getD n [] ++ (bs.drop (n + 1)).flatten := by
  intro bs
  induction bs with
  | nil => intro n; simp [List.getD]
  | cons b bs ih =>
      intro n
      cases n with
      | zero => simp [List.getD_cons_zero]
      | succ k => simpa [List.getD_cons_succ] using ih k

lemma getD_of_get?_some {α : Type} {l : List α} {n : Nat} {a : α}
    (h : l.get? n = some a) (d : α) : l.getD n d = a := by
  simp only [List.getD, ← List.get?_eq_getElem?, h, Option.getD_some]

lemma remainingFrom_of_none {m : HashMap K V} {outer : Nat}
    (ho : m.buckets.get? outer = none) (inner : Nat) :
    remainingFrom m outer inner = [] := by
  have hle : m.buckets.length ≤ outer := List.get?_eq_none.mp ho
  unfold remainingFrom
  rw [List.getD_eq_default _ _ hle,
    List.drop_eq_nil_of_le (show m.buckets.length ≤ outer + 1 by omega)]
  simp

lemma iterNextLoop_of_none {m : HashMap K V} {outer : Nat}
    (ho : m.buckets.get? outer = none) (inner : Nat) :
    iterNextLoop m outer inner = none := by
  rw [iterNextLoop, ho]

/-- One `Iter::next` call either reports exhaustion with nothing left to
deliver, or yields exactly the head of the remaining entries, moving the
cursor to a position whose remaining entries are the tail. -/
lemma iterNextLoop_spec (m : HashMap K V) :
    ∀ gas outer, m.buckets.length ≤ outer + gas → ∀ inner,
      (iterNextLoop m outer inner = none ∧ remainingFrom m outer inner = []) ∨
      (∃ kv o2 i2, iterNextLoop m outer inner = some (kv, ⟨o2, i2⟩) ∧
        remainingFrom m outer inner = kv :: remainingFrom m o2 i2) := by
  intro gas
  induction gas with
  | zero =>
      intro outer hg inner
      have ho : m.buckets.get? outer = none := List.get?_eq_none.mpr (by omega)
      exact Or.inl ⟨iterNextLoop_of_none ho inner, remainingFrom_of_none ho inner⟩
  | succ g ih =>
      intro outer hg inner
      cases ho : m.buckets.get? outer with
      | none =>
          exact Or.inl ⟨iterNextLoop_of_none ho inner, remainingFrom_of_none ho inner⟩
      | some chain =>
          cases hi : chain.get? inner with
          | some kv =>
              have hi2 : chain[inner]? = some kv := by
                rw [← List.get?_eq_getElem?]
                exact hi
              refine Or.inr ⟨kv, outer, inner + 1, ?_, ?_⟩
              · rw [iterNextLoop, ho]
                simp [hi2]
              · unfold remainingFrom
                rw [getD_of_get?_some ho]
                obtain ⟨hin, hv⟩ := List.get?_eq_some.mp hi
                have hkv : chain[inner] = kv := by
                  simpa [List.get_eq_getElem] using hv
                rw [List.drop_eq_getElem_cons hin, hkv]
                simp
          | none =>
              obtain ⟨hlt, -⟩ := List.get?_eq_some.mp ho
              have hi2 : chain[inner]? = none := by
                rw [← List.get?_eq_getElem?]
                exact hi
              have hstep : iterNextLoop m outer inner = iterNextLoop m (outer + 1) 0 := by
                rw [iterNextLoop, ho]
                simp [hi2]
              have heq : remainingFrom m outer inner = remainingFrom m (outer + 1) 0 := by
                unfold remainingFrom
                rw [getD_of_get?_some ho,
                  List.drop_eq_nil_of_le (List.get?_eq_none.mp hi)]
                rw [List.nil_append, List.drop_zero]
                exact flatten_drop_succ m.buckets (outer + 1)
              rcases ih (outer + 1) (by omega) 0 with ⟨hn, hr⟩ | ⟨kv, o2, i2, hs, hr⟩
              · exact Or.inl ⟨hstep.trans hn, heq.trans hr⟩
              · exact Or.inr ⟨kv, o2, i2, hstep.trans hs, heq.trans hr⟩

/-- Driving the iterator with sufficient fuel delivers exactly the remaining
entries from the cursor position. -/
lemma iterRunF_spec (m : HashMap K V) :
    ∀ fuel outer inner, (remainingFrom m outer inner).length < fuel →
      iterRunF m fuel ⟨outer, inner⟩ = remainingFrom m outer inner := by
  intro fuel
  induction fuel with
  | zero => intro outer inner h; omega
  | succ f ih =>
      intro outer inner h
      rcases iterNextLoop_spec m m.buckets.length outer (by omega) inner with
        ⟨hn, hr⟩ | ⟨kv, o2, i2, hs, hr⟩
      · simp [iterRunF, iterNext, hn, hr]
      · simp only [iterRunF, iterNext, hs]
        rw [hr]
        have hlen : (remainingFrom m o2 i2).length < f := by
          rw [hr] at h
          simpa using Nat.lt_of_succ_lt_succ h
        rw [ih o2 i2 hlen]

/-- C8: driving the iterator from `into_iter` with any sufficient fuel yields
exactly the stored entries — each pair once, with its current value — walking
buckets in array order and each bucket in storage order, and the traversal
needs no more steps than entries (it terminates). -/
theorem iteration_yields_buckets_in_order (m : HashMap K V) (fuel : Nat)
    (hfuel : totalEntries m < fuel) :
    iterRunF m fuel into_iter = m.buckets.flatten := by
  have h00 : remainingFrom m 0 0 = m.buckets.flatten := by
    cases hb : m.buckets with
    | nil => simp [remainingFrom, hb]
    | cons b bs => simp [remainingFrom, hb, List.getD_cons_zero]
  have := iterRunF_spec m fuel 0 0 (by rw [h00]; exact hfuel)
  simpa [into_iter, h00] using this

/-- C8 witness: the singleton table `{0 ↦ 5}` (1024 buckets, one stored entry)
is fully traversed with fuel 2, yielding exactly its stored entry. -/
theorem iteration_yields_buckets_in_order_witness :
    totalEntries (put idHash (new : HashMap Nat Nat) 0 5) < 2 ∧
    iterRunF (put idHash (new : HashMap Nat Nat) 0 5) 2 into_iter
      = (put idHash (new : HashMap Nat Nat) 0 5).buckets.flatten :=
  ⟨by decide, iteration_yields_buckets_in_order _ 2 (by decide)⟩

/-- C10: the read-only operations (`get`, `contains_key`, `size`, `is_empty`,
full iterator traversal) act on a shared borrow of the table and return the
receiver exactly as it was: same bucket vector, same counter, same capacity. -/
theorem readonly_ops_preserve_state (hash : K → Nat) (m : HashMap K V)
    (key : K) (fuel : Nat) :
    (getS hash m key).2 = m ∧ (contains_keyS hash m key).2 = m ∧
    (sizeS m).2 = m ∧ (is_emptyS m).2 = m ∧ (iterS m fuel).2 = m :=
  ⟨rfl, rfl, rfl, rfl, rfl⟩

end RustHashMap
